import Mathlib

/-!
Shallow embedding of `slre.c` (Simple Regular Expression library) and proofs
about its analyzer, branch resolver and matcher.

Pattern and subject are modelled as `List Char`; a pointer into the C string
becomes an absolute offset (`Nat`).  Reads past the end of a list return the
NUL byte, exactly as reading the terminator of the nul-terminated C pattern
does.  The mutually recursive matcher `bar`/`doh` is embedded with an explicit
fuel argument (`none` = fuel exhausted); every theorem about match results
quantifies over the fuel.  `int` values that stay non-negative in every
execution are `Nat`; values that use `-1` as a sentinel (`bracket_pair.len`,
the scan depth) are `Int`.  Capture recording (`struct slre_cap`) is the
`caps == NULL` path of the source: none of the properties below concern
capture output, only return values and the error-message slot, both of which
are threaded explicitly.
-/

namespace Slre

/-- The NUL byte, the value read one past the end of a nul-terminated string. -/
def NUL : Char := Char.ofNat 0

/-- Read byte `i`; out-of-range reads give NUL (the C terminator). -/
def charAt (l : List Char) (i : Nat) : Char := l.getD i NUL

/-- C `isspace` in the default locale (ASCII): space, \t, \n, \v, \f, \r. -/
def c_isspace (c : Char) : Bool :=
  decide (c.toNat = 32 ∨ (9 ≤ c.toNat ∧ c.toNat ≤ 13))

/-- C `isdigit`. -/
def c_isdigit (c : Char) : Bool :=
  decide (48 ≤ c.toNat ∧ c.toNat ≤ 57)

def static_error_no_match : String := "No match"
def static_error_unexpected_quantifier : String := "Unexpected quantifier"
def static_error_unbalanced_brackets : String := "Unbalanced brackets"
def static_error_internal : String := "Internal error"
def static_error_invalid_metacharacter : String := "Invalid metacharacter"
def error_too_many_branches : String := "Too many |. Increase MAX_BRANCHES"
def error_too_many_brackets : String := "Too many (. Increase MAX_BRACKETS"

def MAX_BRANCHES : Nat := 100
def MAX_BRACKETS : Nat := 100

/-- `get_op_len` from slre.c: an escape is two bytes, every other op is one. -/
def get_op_len (re : List Char) (i : Nat) : Nat :=
  if charAt re i = '\\' then 2 else 1

/-- `is_quantifier` from slre.c. -/
def is_quantifier (re : List Char) (i : Nat) : Bool :=
  decide (charAt re i = '*' ∨ charAt re i = '+' ∨ charAt re i = '?')

/-- `struct branch`: one `|`, owned by a bracket pair.  `schlong` is the
offset of the `|` in the pattern (the source stores a pointer to it). -/
structure Branch where
  bracket_index : Int
  schlong : Nat
deriving Repr, DecidableEq

instance : Inhabited Branch := ⟨⟨0, 0⟩⟩

/-- `struct bracket_pair`: `ptr` is the offset of the first byte after `(`,
`len` the byte count to the matching `)` (`-1` while still open),
`branches`/`num_branches` the slice of the branch array owned by this pair. -/
structure BracketPair where
  ptr : Nat
  len : Int
  branches : Nat
  num_branches : Nat
deriving Repr, DecidableEq

instance : Inhabited BracketPair := ⟨⟨0, 0, 0, 0⟩⟩

/-- `struct regex_info` (minus the error slot and flags, threaded separately). -/
structure RegexInfo where
  brackets : List BracketPair
  branches : List Branch
deriving Repr, DecidableEq

/-- The owning-bracket computation shared by the `|` and `)` actions of the
scan: the most recently opened bracket if it is still open (`len == -1`),
otherwise the current depth. -/
def ownerIndex (brs : List BracketPair) (depth : Int) : Int :=
  if (brs.getD (brs.length - 1) default).len = -1
  then ((brs.length - 1 : Nat) : Int) else depth

/-- The `)` action of the scan: close bracket `ownerIndex brs depth`, setting
its `len` to the distance from its `ptr` to the `)` at offset `i`.  The C
code performs this write before its two `FAIL_IF`s; since a failing `foo`
returns without ever reading the bracket array again, applying the write
only on the continue path is observationally identical. -/
def closeBracket (brs : List BracketPair) (depth : Int) (i : Nat) : List BracketPair :=
  brs.set (ownerIndex brs depth).toNat
    { brs.getD (ownerIndex brs depth).toNat default with
        len := (i : Int) - ((brs.getD (ownerIndex brs depth).toNat default).ptr : Int) }

mutual

/-- The single pass of `foo` over the pattern: record brackets and branches,
maintain the depth counter.  The list argument is the still-unscanned suffix
of the pattern (`re.drop i`); recursion on it is the loop `i += step`.
Returns the bracket list, branch list, and final depth, or the error message
of the first failing `FAIL_IF`. -/
def scanGo (re : List Char) :
    List Char → Nat → Int → List BracketPair → List Branch →
    Except String (List BracketPair × List Branch × Int)
  | [], _, depth, brs, bas => Except.ok (brs, bas, depth)
  | c :: rest, i, depth, brs, bas =>
    if c = '|' then
      if MAX_BRANCHES ≤ bas.length then Except.error error_too_many_branches
      else
        scanGo re rest (i + 1) depth brs (bas ++ [⟨ownerIndex brs depth, i⟩])
    else if c = '(' then
      if MAX_BRACKETS ≤ brs.length then Except.error error_too_many_brackets
      else
        scanGo re rest (i + 1) (depth + 1) (brs ++ [⟨i + 1, -1, 0, 0⟩]) bas
    else if c = ')' then
      if depth - 1 < 0 then Except.error static_error_unbalanced_brackets
      else if 0 < i ∧ charAt re (i - 1) = '(' then Except.error static_error_no_match
      else scanGo re rest (i + 1) (depth - 1) (closeBracket brs depth i) bas
    else if c = '\\' then
      scanSkip re rest i depth brs bas
    else scanGo re rest (i + 1) depth brs bas

/-- Step over the payload byte of an escape during the scan (`i += 2`): the
step may run off the end of the pattern, ending the loop. -/
def scanSkip (re : List Char) :
    List Char → Nat → Int → List BracketPair → List Branch →
    Except String (List BracketPair × List Branch × Int)
  | [], _, depth, brs, bas => Except.ok (brs, bas, depth)
  | _ :: rest2, i, depth, brs, bas => scanGo re rest2 (i + 2) depth brs bas

end

/-- Inner loop of the exchange sort in `setup_branch_points`:
`for (j = i+1; j < n; j++) if (a[i] > a[j]) swap(a[i], a[j])`.
The `Nat` countdown is the number of remaining `j` iterations. -/
def sortInner (i : Nat) : Nat → Nat → List Branch → List Branch
  | _, 0, bas => bas
  | j, k + 1, bas =>
    let bi := bas.getD i default
    let bj := bas.getD j default
    let bas' :=
      if bj.bracket_index < bi.bracket_index then (bas.set i bj).set j bi else bas
    sortInner i (j + 1) k bas'

/-- Outer loop of the exchange sort (`for (i = 0; i < n; i++)`). -/
def sortOuter : Nat → Nat → List Branch → List Branch
  | _, 0, bas => bas
  | i, k + 1, bas => sortOuter (i + 1) k (sortInner i (i + 1) (bas.length - (i + 1)) bas)

/-- The sort of `setup_branch_points` (the source's "bubble algo"). -/
def sortBranches (bas : List Branch) : List Branch := sortOuter 0 bas.length bas

/-- The `while (j < num_branches && branches[j].bracket_index == i) j++` run
length, counted from `j`.  The countdown bounds the iteration count. -/
def runLen (bas : List Branch) (idx : Int) : Nat → Nat → Nat
  | _, 0 => 0
  | j, k + 1 =>
    if j < bas.length ∧ (bas.getD j default).bracket_index = idx
    then 1 + runLen bas idx (j + 1) k else 0

/-- Second half of `setup_branch_points`: walk the brackets, giving each its
slice of the sorted branch array.  `i` is the bracket index, `j` the cursor
into the branches, the countdown the number of remaining brackets. -/
def assignGo (bas : List Branch) : Nat → Nat → Nat → List BracketPair → List BracketPair
  | _, _, 0, brs => brs
  | i, j, k + 1, brs =>
    let cnt := runLen bas ((i : Nat) : Int) j bas.length
    let br := brs.getD i default
    assignGo bas (i + 1) (j + cnt) k (brs.set i { br with branches := j, num_branches := cnt })

/-- `setup_branch_points` from slre.c: sort the branches, then annotate each
bracket with its branch range. -/
def setup_branch_points (info : RegexInfo) : RegexInfo :=
  let bas := sortBranches info.branches
  ⟨assignGo bas 0 0 info.brackets.length info.brackets, bas⟩

/-- Start offset of alternative `i` of bracket `bi`, as computed in `doh`:
`p = i == 0 ? b->ptr : branches[b->branches + i - 1].schlong + 1`. -/
def branchStart (info : RegexInfo) (bi i : Nat) : Nat :=
  let b := info.brackets.getD bi default
  if i = 0 then b.ptr
  else (info.branches.getD (b.branches + i - 1) default).schlong + 1

/-- Length of alternative `i` of bracket `bi`, as computed in `doh`.  The
subtractions are on `Int` and clamped at 0; a non-positive length makes the
C `bar` return 0 immediately, exactly like length 0 here. -/
def branchLen (info : RegexInfo) (bi i : Nat) : Nat :=
  let b := info.brackets.getD bi default
  if b.num_branches = 0 then b.len.toNat
  else if i = b.num_branches then
    (((b.ptr : Int) + b.len) - (branchStart info bi i : Int)).toNat
  else
    (((info.branches.getD (b.branches + i) default).schlong : Int)
      - (branchStart info bi i : Int)).toNat

/-- Exit of the quantifier loop in `bar`:
`FAIL_IF(re[i + step] == '+' && nj == 0, static_error_no_match); return nj;`.
`qpos` is the absolute offset of the quantifier character. -/
def quantFinish (re : List Char) (qpos : Nat) (nj : Nat) (err : String) :
    Option (Nat × String) :=
  if charAt re qpos = '+' ∧ nj = 0 then some (0, static_error_no_match)
  else some (nj, err)

/-- The `case '\\'` switch of `bar` (metacharacters): `none` means the
subject byte `s[j]` is accepted and the cursor advances, `some msg` means the
corresponding `FAIL_IF` fired. -/
def metaCase (re s : List Char) (off soff i j : Nat) : Option String :=
  if charAt re (off + i + 1) = 'S' then
    if c_isspace (charAt s (soff + j)) then some static_error_no_match else none
  else if charAt re (off + i + 1) = 's' then
    if c_isspace (charAt s (soff + j)) then none else some static_error_no_match
  else if charAt re (off + i + 1) = 'd' then
    if c_isdigit (charAt s (soff + j)) then none else some static_error_no_match
  else if charAt re (off + i + 1) = '+' ∨ charAt re (off + i + 1) = '?' ∨
          charAt re (off + i + 1) = '*' ∨ charAt re (off + i + 1) = '\\' ∨
          charAt re (off + i + 1) = '(' ∨ charAt re (off + i + 1) = ')' ∨
          charAt re (off + i + 1) = '^' ∨ charAt re (off + i + 1) = '$' ∨
          charAt re (off + i + 1) = '.' ∨ charAt re (off + i + 1) = '[' ∨
          charAt re (off + i + 1) = ']' then
    if charAt re (off + i + 1) = charAt s (soff + j) then none
    else some static_error_no_match
  else some static_error_invalid_metacharacter

/-- The non-greedy flag of a `+`/`*` quantifier whose atom starts at window
offset `i` with length `step`: a `?` directly after the quantifier, still
inside the window. -/
def nonGreedy (re : List Char) (off rlen i step : Nat) : Bool :=
  decide (i + step + 1 < rlen ∧ charAt re (off + i + step + 1) = '?')

/-- Window offset of the regexp code after a `+`/`*` quantifier
(`ni = i + step + next_step` in the source, where `next_step` grows by one
for a non-greedy `?` suffix). -/
def quantNext (re : List Char) (off rlen i step : Nat) : Nat :=
  i + step +
    (if nonGreedy re off rlen i step then get_op_len re (off + i + step) + 1
     else get_op_len re (off + i + step))

mutual

/-- `bar` from slre.c: match the pattern window `[off, off+rlen)` against the
subject window `[soff, soff+slen)`; on success return the number of subject
bytes consumed, on failure 0 together with the updated error message. -/
def bar (re s : List Char) (info : RegexInfo) :
    Nat → Nat → Nat → Nat → Nat → Nat → String → Option (Nat × String)
  | 0, _, _, _, _, _, _ => none
  | fuel + 1, off, rlen, soff, slen, bi, err =>
    barLoop re s info fuel off rlen soff slen bi 0 0 err
termination_by structural fuel => fuel

/-- The `for (i = j = 0; i < re_len && j < s_len; i += step)` loop of `bar`,
including the post-loop `$` check.  `i`/`j` are the pattern/subject cursors
relative to the windows. -/
def barLoop (re s : List Char) (info : RegexInfo) :
    Nat → Nat → Nat → Nat → Nat → Nat → Nat → Nat → String → Option (Nat × String)
  | 0, _, _, _, _, _, _, _, _ => none
  | fuel + 1, off, rlen, soff, slen, bi, i, j, err =>
    if i < rlen ∧ j < slen then
      -- `step` is `get_op_len re (off + i)`, written out so that case analysis
      -- does not have to look through a `let` binder.  The source's
      -- `FAIL_IF(step <= 0)` is omitted: `get_op_len` only returns 1 or 2,
      -- so that check can never fire.
      if is_quantifier re (off + i) then some (0, static_error_unexpected_quantifier)
      else if i + get_op_len re (off + i) < rlen ∧
              is_quantifier re (off + i + get_op_len re (off + i)) = true then
        if charAt re (off + i + get_op_len re (off + i)) = '?' then
          match bar re s info fuel (off + i) (get_op_len re (off + i)) (soff + j) (slen - j)
                  bi err with
          | none => none
          | some (n, err1) =>
            barLoop re s info fuel off rlen soff slen bi
              (i + 1 + get_op_len re (off + i)) (j + n) err1
        else
          quantLoop re s info fuel off rlen soff slen bi i (get_op_len re (off + i))
            (quantNext re off rlen i (get_op_len re (off + i)))
            (nonGreedy re off rlen i (get_op_len re (off + i))) j 0 err
      else
        if charAt re (off + i) = '\\' then
          match metaCase re s off soff i j with
          | some msg => some (0, msg)
          | none =>
            barLoop re s info fuel off rlen soff slen bi (i + get_op_len re (off + i)) (j + 1) err
        else if charAt re (off + i) = '(' then
          if info.brackets.length ≤ bi + 1 then some (0, static_error_internal)
          else
            match doh re s info fuel (soff + j) (slen - j) (bi + 1) err with
            | none => none
            | some (n, err1) =>
              if n = 0 then some (0, static_error_no_match)
              else
                barLoop re s info fuel off rlen soff slen (bi + 1)
                  (((i : Int) + (info.brackets.getD (bi + 1) default).len + 1 +
                    (get_op_len re (off + i) : Int)).toNat)
                  (j + n) err1
        else if charAt re (off + i) = '^' then
          if j ≠ 0 then some (0, static_error_no_match)
          else barLoop re s info fuel off rlen soff slen bi (i + get_op_len re (off + i)) j err
        else if charAt re (off + i) = '|' then some (0, static_error_internal)
        else if charAt re (off + i) = '$' then some (0, static_error_no_match)
        else if charAt re (off + i) = '.' then
          barLoop re s info fuel off rlen soff slen bi (i + get_op_len re (off + i)) (j + 1) err
        else
          if charAt re (off + i) = charAt s (soff + j) then
            barLoop re s info fuel off rlen soff slen bi (i + get_op_len re (off + i)) (j + 1) err
          else some (0, static_error_no_match)
    else
      if i < rlen ∧ ¬(charAt re (off + i) = '$' ∧ i + 1 = rlen) then
        some (0, static_error_no_match)
      else some (j, err)
termination_by structural fuel => fuel

/-- The `while ((n1 = bar(re + i, step, s + j2, ...)) > 0)` quantifier loop of
`bar`.  `i`/`step` locate the repeated atom, `ni` the tail after the
quantifier, `ng` the non-greedy flag, `j2` the subject bytes consumed by the
repetitions so far, `nj` the best confirmed end offset. -/
def quantLoop (re s : List Char) (info : RegexInfo) :
    Nat → Nat → Nat → Nat → Nat → Nat → Nat → Nat → Nat → Bool → Nat → Nat → String →
    Option (Nat × String)
  | 0, _, _, _, _, _, _, _, _, _, _, _, _ => none
  | fuel + 1, off, rlen, soff, slen, bi, i, step, ni, ng, j2, nj, err =>
    match bar re s info fuel (off + i) step (soff + j2) (slen - j2) bi err with
    | none => none
    | some (n1, err1) =>
      if n1 = 0 then quantFinish re (off + i + step) nj err1
      else if rlen ≤ ni then
        if ng then some (j2 + n1, err1)
        else quantLoop re s info fuel off rlen soff slen bi i step ni ng (j2 + n1) (j2 + n1) err1
      else
        match bar re s info fuel (off + ni) (rlen - ni) (soff + (j2 + n1))
                (slen - (j2 + n1)) bi err1 with
        | none => none
        | some (n2, err2) =>
          if n2 = 0 then
            if 0 < nj ∧ ng = true then some (nj, err2)
            else quantLoop re s info fuel off rlen soff slen bi i step ni ng (j2 + n1) nj err2
          else
            if ng then some (j2 + n1 + n2, err2)
            else
              quantLoop re s info fuel off rlen soff slen bi i step ni ng (j2 + n1)
                (j2 + n1 + n2) err2
termination_by structural fuel => fuel

/-- `doh` from slre.c: try the alternatives of bracket `bi` against the
subject window; a do-while loop over the branch list. -/
def doh (re s : List Char) (info : RegexInfo) :
    Nat → Nat → Nat → Nat → String → Option (Nat × String)
  | 0, _, _, _, _ => none
  | fuel + 1, soff, slen, bi, err => dohGo re s info fuel soff slen bi 0 err
termination_by structural fuel => fuel

/-- The `do { ... } while (i++ < b->num_branches)` loop of `doh`: run
alternative `i`, keep its result, continue while `i < num_branches`. -/
def dohGo (re s : List Char) (info : RegexInfo) :
    Nat → Nat → Nat → Nat → Nat → String → Option (Nat × String)
  | 0, _, _, _, _, _ => none
  | fuel + 1, soff, slen, bi, i, err =>
    match bar re s info fuel (branchStart info bi i) (branchLen info bi i) soff slen bi err with
    | none => none
    | some (res, err1) =>
      if i < (info.brackets.getD bi default).num_branches then
        dohGo re s info fuel soff slen bi (i + 1) err1
      else some (res, err1)
termination_by structural fuel => fuel

end

/-- The analysis half of `foo`: the scan, the depth-balance check and
`setup_branch_points`.  Bracket 0 is pre-populated with the whole pattern. -/
def analysis (re : List Char) : Except String RegexInfo :=
  match scanGo re re 0 0 [⟨0, (re.length : Int), 0, 0⟩] [] with
  | Except.error m => Except.error m
  | Except.ok (brs, bas, depth) =>
    if depth ≠ 0 then Except.error static_error_unbalanced_brackets
    else Except.ok (setup_branch_points ⟨brs, bas⟩)

/-- The scan loop of `foo` over anchor offsets: try `doh` on bracket 0 at
each start offset, stop on a positive result or (always) when the pattern
begins with `^`; the countdown is the number of remaining offsets
(`s_len - i`). -/
def fooDriver (re s : List Char) (info : RegexInfo) (slen fuel : Nat) :
    Nat → Nat → String → Option (Nat × String)
  | 0, _, err => some (0, err)
  | k + 1, i, err =>
    match doh re s info fuel i (slen - i) 0 err with
    | none => none
    | some (r, err1) =>
      if 0 < r ∨ charAt re 0 = '^' then some (r + i, err1)
      else fooDriver re s info slen fuel k (i + 1) err1

/-- `foo` from slre.c: analysis, then the anchor scan. -/
def foo (re s : List Char) (slen fuel : Nat) (err0 : String) : Option (Nat × String) :=
  match analysis re with
  | Except.error m => some (0, m)
  | Except.ok info => fooDriver re s info slen fuel slen 0 err0

/-- `slre_match`: initialize the error slot to "No match" and run `foo`.
Returns the match result together with the final error message, or `none`
when the fuel runs out. -/
def slre_match (fuel : Nat) (regexp s : List Char) (slen : Nat) : Option (Nat × String) :=
  foo regexp s slen fuel static_error_no_match

/-! Helper lemmas about list updates. -/

theorem getD_set_of_ne {α : Type} (l : List α) (n : Nat) (a d : α) (h : n ≠ 0) :
    (l.set n a).getD 0 d = l.getD 0 d := by
  cases l with
  | nil => simp
  | cons x xs =>
    cases n with
    | zero => exact absurd rfl h
    | succ m => simp [List.set]

theorem getD_set_zero {α : Type} (l : List α) (a d : α) (h : 0 < l.length) :
    (l.set 0 a).getD 0 d = a := by
  cases l with
  | nil => simp at h
  | cons x xs => simp [List.set]

/-! A zero-length pattern window: `bar` returns `j = 0` at once. -/

theorem bar_rlen_zero (re s : List Char) (info : RegexInfo) :
    ∀ fuel off soff slen bi err r e,
      bar re s info fuel off 0 soff slen bi err = some (r, e) → r = 0 := by
  intro fuel off soff slen bi err r e h
  match fuel with
  | 0 => simp [bar] at h
  | g + 1 =>
    simp only [bar] at h
    match g with
    | 0 => simp [barLoop] at h
    | g' + 1 =>
      simp only [barLoop] at h
      simp only [Nat.not_lt_zero, false_and, if_false, Option.some.injEq,
        Prod.mk.injEq] at h
      omega

/-! Every matcher result is bounded by the length of its subject window. -/

set_option maxHeartbeats 2000000 in
theorem matcher_le (re s : List Char) (info : RegexInfo) : ∀ fuel : Nat,
    (∀ off rlen soff slen bi err r e,
       bar re s info fuel off rlen soff slen bi err = some (r, e) → r ≤ slen)
  ∧ (∀ off rlen soff slen bi i j err r e, j ≤ slen →
       barLoop re s info fuel off rlen soff slen bi i j err = some (r, e) → r ≤ slen)
  ∧ (∀ off rlen soff slen bi i step ni ng j2 nj err r e, j2 ≤ slen → nj ≤ slen →
       quantLoop re s info fuel off rlen soff slen bi i step ni ng j2 nj err = some (r, e) →
         r ≤ slen)
  ∧ (∀ soff slen bi err r e, doh re s info fuel soff slen bi err = some (r, e) → r ≤ slen)
  ∧ (∀ soff slen bi i err r e, dohGo re s info fuel soff slen bi i err = some (r, e) →
       r ≤ slen) := by
  intro fuel
  induction fuel with
  | zero =>
    refine ⟨?_, ?_, ?_, ?_, ?_⟩ <;> intros <;> simp_all [bar, barLoop, quantLoop, doh, dohGo]
  | succ fuel ih =>
    obtain ⟨ihb, ihbl, ihq, ihd, ihdg⟩ := ih
    refine ⟨?_, ?_, ?_, ?_, ?_⟩
    · intro off rlen soff slen bi err r e h
      rw [bar] at h
      exact ihbl off rlen soff slen bi 0 0 err r e (Nat.zero_le _) h
    · intro off rlen soff slen bi i j err r e hj h
      rw [barLoop] at h
      split at h
      case isTrue hin =>
        split at h
        · simp only [Option.some.injEq, Prod.mk.injEq] at h; omega
        split at h
        · -- quantifier lookahead
          split at h
          · -- '?' case
            split at h
            · exact absurd h (by simp)
            case h_2 n err1 heq =>
              have hn := ihb _ _ _ _ _ _ _ _ heq
              exact ihbl _ _ _ _ _ _ _ _ _ _ (by omega) h
          · -- '+'/'*' case
            exact ihq _ _ _ _ _ _ _ _ _ _ _ _ _ _ hj (Nat.zero_le _) h
        · -- the switch
          split at h
          · -- '\\'
            split at h
            · simp only [Option.some.injEq, Prod.mk.injEq] at h; omega
            · exact ihbl _ _ _ _ _ _ _ _ _ _ (by omega) h
          split at h
          · -- '('
            split at h
            · simp only [Option.some.injEq, Prod.mk.injEq] at h; omega
            · split at h
              · exact absurd h (by simp)
              case h_2 n err1 heq =>
                split at h
                · simp only [Option.some.injEq, Prod.mk.injEq] at h; omega
                · have hn := ihd _ _ _ _ _ _ heq
                  exact ihbl _ _ _ _ _ _ _ _ _ _ (by omega) h
          split at h
          · -- '^'
            split at h
            · simp only [Option.some.injEq, Prod.mk.injEq] at h; omega
            · exact ihbl _ _ _ _ _ _ _ _ _ _ hj h
          split at h
          · simp only [Option.some.injEq, Prod.mk.injEq] at h; omega
          split at h
          · simp only [Option.some.injEq, Prod.mk.injEq] at h; omega
          split at h
          · exact ihbl _ _ _ _ _ _ _ _ _ _ (by omega) h
          · split at h
            · exact ihbl _ _ _ _ _ _ _ _ _ _ (by omega) h
            · simp only [Option.some.injEq, Prod.mk.injEq] at h; omega
      case isFalse hout =>
        split at h
        · simp only [Option.some.injEq, Prod.mk.injEq] at h; omega
        · simp only [Option.some.injEq, Prod.mk.injEq] at h; omega
    · intro off rlen soff slen bi i step ni ng j2 nj err r e hj2 hnj h
      rw [quantLoop] at h
      split at h
      · exact absurd h (by simp)
      case h_2 n1 err1 heq1 =>
        have hn1 := ihb _ _ _ _ _ _ _ _ heq1
        split at h
        · -- n1 = 0 : quantFinish
          simp only [quantFinish] at h
          split at h <;> simp only [Option.some.injEq, Prod.mk.injEq] at h <;> omega
        split at h
        · -- ni ≥ rlen
          split at h
          · simp only [Option.some.injEq, Prod.mk.injEq] at h; omega
          · exact ihq _ _ _ _ _ _ _ _ _ _ _ _ _ _ (by omega) (by omega) h
        · -- tail attempt
          split at h
          · exact absurd h (by simp)
          case h_2 n2 err2 heq2 =>
            have hn2 := ihb _ _ _ _ _ _ _ _ heq2
            split at h
            · split at h
              · simp only [Option.some.injEq, Prod.mk.injEq] at h; omega
              · exact ihq _ _ _ _ _ _ _ _ _ _ _ _ _ _ (by omega) hnj h
            · split at h
              · simp only [Option.some.injEq, Prod.mk.injEq] at h; omega
              · exact ihq _ _ _ _ _ _ _ _ _ _ _ _ _ _ (by omega) (by omega) h
    · intro soff slen bi err r e h
      rw [doh] at h
      exact ihdg _ _ _ _ _ _ _ h
    · intro soff slen bi i err r e h
      rw [dohGo] at h
      split at h
      · exact absurd h (by simp)
      case h_2 res err1 heq =>
        have hres := ihb _ _ _ _ _ _ _ _ heq
        split at h
        · exact ihdg _ _ _ _ _ _ _ h
        · simp only [Option.some.injEq, Prod.mk.injEq] at h; omega

/-! The do-while loop of `doh` keeps only the result of its final iteration:
whatever `dohGo` returns is the value `bar` produced on the LAST alternative
of the bracket. -/

theorem dohGo_last (re s : List Char) (info : RegexInfo) : ∀ fuel soff slen bi i err r e,
    i ≤ (info.brackets.getD bi default).num_branches →
    dohGo re s info fuel soff slen bi i err = some (r, e) →
    ∃ f e', bar re s info f
      (branchStart info bi (info.brackets.getD bi default).num_branches)
      (branchLen info bi (info.brackets.getD bi default).num_branches)
      soff slen bi e' = some (r, e) := by
  intro fuel
  induction fuel with
  | zero =>
    intro soff slen bi i err r e hle h
    rw [dohGo] at h
    exact absurd h (by simp)
  | succ fuel ih =>
    intro soff slen bi i err r e hle h
    rw [dohGo] at h
    split at h
    · exact absurd h (by simp)
    case h_2 res err1 heq =>
      split at h
      case isTrue hlt => exact ih _ _ _ _ _ _ _ (by omega) h
      case isFalse hge =>
        have hieq : i = (info.brackets.getD bi default).num_branches := by omega
        subst hieq
        simp only [Option.some.injEq, Prod.mk.injEq] at h
        obtain ⟨rfl, rfl⟩ := h
        exact ⟨fuel, err, heq⟩

/-! Lemmas about the anchor-scanning driver loop of `foo`. -/

theorem fooDriver_le (re s : List Char) (info : RegexInfo) (slen fuel : Nat) :
    ∀ k i err r e, i + k = slen →
      fooDriver re s info slen fuel k i err = some (r, e) → r ≤ slen := by
  intro k
  induction k with
  | zero =>
    intro i err r e hk h
    rw [fooDriver] at h
    simp only [Option.some.injEq, Prod.mk.injEq] at h
    omega
  | succ k ih =>
    intro i err r e hk h
    rw [fooDriver] at h
    split at h
    · exact absurd h (by simp)
    case h_2 r0 err1 heq =>
      have hr0 := (matcher_le re s info fuel).2.2.2.1 _ _ _ _ _ _ heq
      split at h
      · simp only [Option.some.injEq, Prod.mk.injEq] at h; omega
      · exact ih _ _ _ _ (by omega) h

theorem fooDriver_caret (re s : List Char) (info : RegexInfo) (slen fuel : Nat)
    (hc : charAt re 0 = '^') :
    ∀ k i err, fooDriver re s info slen fuel (k + 1) i err =
      (doh re s info fuel i (slen - i) 0 err).map (fun p => (p.1 + i, p.2)) := by
  intro k i err
  rw [fooDriver]
  cases hdoh : doh re s info fuel i (slen - i) 0 err with
  | none => simp
  | some p =>
    obtain ⟨r0, err1⟩ := p
    simp [hc]

theorem fooDriver_pos (re s : List Char) (info : RegexInfo) (slen fuel : Nat) :
    ∀ k i err r e, fooDriver re s info slen fuel k i err = some (r, e) → 0 < r →
      ∃ i2 r0 err2, doh re s info fuel i2 (slen - i2) 0 err2 = some (r0, e) ∧
        r = r0 + i2 ∧ (0 < r0 ∨ (charAt re 0 = '^' ∧ i2 = i)) := by
  intro k
  induction k with
  | zero =>
    intro i err r e h hr
    rw [fooDriver] at h
    simp only [Option.some.injEq, Prod.mk.injEq] at h
    omega
  | succ k ih =>
    intro i err r e h hr
    rw [fooDriver] at h
    split at h
    · exact absurd h (by simp)
    case h_2 r0 err1 heq =>
      split at h
      case isTrue hbrk =>
        simp only [Option.some.injEq, Prod.mk.injEq] at h
        obtain ⟨h1, rfl⟩ := h
        by_cases hp : 0 < r0
        · exact ⟨i, r0, err, heq, by omega, Or.inl hp⟩
        · rcases hbrk with hpos | hcar
          · exact absurd hpos hp
          · exact ⟨i, r0, err, heq, by omega, Or.inr ⟨hcar, rfl⟩⟩
      case isFalse hnb =>
        obtain ⟨i2, r0', err2, hd, hre, hcase⟩ := ih (i + 1) err1 r e h hr
        refine ⟨i2, r0', err2, hd, hre, ?_⟩
        rcases hcase with hp | ⟨hcar, _⟩
        · exact Or.inl hp
        · exact absurd (Or.inr hcar) hnb

/-- An analysis error short-circuits `slre_match` with result 0 and that
error message, for every subject and fuel. -/
theorem analysis_error_match (re s : List Char) (slen fuel : Nat) (m : String)
    (h : analysis re = Except.error m) :
    slre_match fuel re s slen = some (0, m) := by
  simp [slre_match, foo, h]

/-! The scan never touches bracket 0 (the implicit whole-pattern bracket):
on a successful scan it still reads `⟨0, re_len, 0, 0⟩`. -/

theorem scanGo_bracket0 (re : List Char) (N : Int) (hN : N ≠ -1) :
    ∀ l i depth brs bas brs' bas' d,
      0 < brs.length → brs.getD 0 default = ⟨0, N, 0, 0⟩ →
      scanGo re l i depth brs bas = Except.ok (brs', bas', d) →
      0 < brs'.length ∧ brs'.getD 0 default = ⟨0, N, 0, 0⟩ := by
  suffices H : ∀ n l, l.length ≤ n → ∀ i depth brs bas brs' bas' d,
      0 < brs.length → brs.getD 0 default = ⟨0, N, 0, 0⟩ →
      scanGo re l i depth brs bas = Except.ok (brs', bas', d) →
      0 < brs'.length ∧ brs'.getD 0 default = ⟨0, N, 0, 0⟩ by
    exact fun l => H l.length l le_rfl
  intro n
  induction n with
  | zero =>
    intro l hl i depth brs bas brs' bas' d hlen h0 h
    have : l = [] := List.length_eq_zero.mp (by omega)
    subst this
    rw [scanGo] at h
    simp only [Except.ok.injEq, Prod.mk.injEq] at h
    obtain ⟨rfl, rfl, rfl⟩ := h
    exact ⟨hlen, h0⟩
  | succ n ihn =>
    intro l hl i depth brs bas brs' bas' d hlen h0 h
    match l with
    | [] =>
      rw [scanGo] at h
      simp only [Except.ok.injEq, Prod.mk.injEq] at h
      obtain ⟨rfl, rfl, rfl⟩ := h
      exact ⟨hlen, h0⟩
    | c :: rest =>
    have ih : ∀ i depth brs bas brs' bas' d,
        0 < brs.length → brs.getD 0 default = ⟨0, N, 0, 0⟩ →
        scanGo re rest i depth brs bas = Except.ok (brs', bas', d) →
        0 < brs'.length ∧ brs'.getD 0 default = ⟨0, N, 0, 0⟩ :=
      ihn rest (by simp at hl; omega)
    rw [scanGo] at h
    split at h
    · -- '|'
      split at h
      · exact absurd h (by simp)
      · exact ih _ _ _ _ _ _ _ hlen h0 h
    split at h
    · -- '('
      split at h
      · exact absurd h (by simp)
      · refine ih _ _ _ _ _ _ _ (by simp) ?_ h
        rw [List.getD_append _ _ _ _ hlen]
        exact h0
    split at h
    · -- ')'
      split at h
      · exact absurd h (by simp)
      split at h
      · exact absurd h (by simp)
      case isFalse hdep _ =>
        refine ih _ _ _ _ _ _ _ ?_ ?_ h
        · simpa [closeBracket] using hlen
        · have hind : (ownerIndex brs depth).toNat ≠ 0 := by
            unfold ownerIndex
            split
            case isTrue hsent =>
              intro hz
              have h1 : brs.length - 1 = 0 := by
                simpa using hz
              rw [h1, h0] at hsent
              exact hN hsent
            case isFalse hsent =>
              have : (1 : Int) ≤ depth := by omega
              intro hz
              omega
          unfold closeBracket
          rw [getD_set_of_ne _ _ _ _ hind]
          exact h0
    split at h
    · -- '\\'
      cases rest with
      | nil =>
        rw [scanSkip] at h
        simp only [Except.ok.injEq, Prod.mk.injEq] at h
        obtain ⟨rfl, rfl, rfl⟩ := h
        exact ⟨hlen, h0⟩
      | cons x rest2 =>
        rw [scanSkip] at h
        exact ihn rest2 (by simp at hl; omega) _ _ _ _ _ _ _ hlen h0 h
    · exact ih _ _ _ _ _ _ _ hlen h0 h

theorem assignGo_getD0 (bas : List Branch) :
    ∀ k i j brs, 1 ≤ i →
      (assignGo bas i j k brs).getD 0 default = brs.getD 0 default := by
  intro k
  induction k with
  | zero => intro i j brs hi; rw [assignGo]
  | succ k ih =>
    intro i j brs hi
    simp only [assignGo]
    rw [ih _ _ _ (by omega), getD_set_of_ne _ _ _ _ (by omega)]

/-- After a successful analysis, bracket 0 still spans the whole pattern and
its branch slice starts at 0. -/
theorem analysis_bracket0 (re : List Char) (info : RegexInfo)
    (h : analysis re = Except.ok info) :
    ∃ nb, info.brackets.getD 0 default = ⟨0, (re.length : Int), 0, nb⟩ := by
  unfold analysis at h
  split at h
  · exact absurd h (by simp)
  case h_2 brs bas depth heq =>
    split at h
    · exact absurd h (by simp)
    case isFalse hd =>
      simp only [Except.ok.injEq] at h
      subst h
      have hN : ((re.length : Int)) ≠ -1 := by omega
      obtain ⟨hlen, h0⟩ :=
        scanGo_bracket0 re (re.length : Int) hN re 0 0 _ [] _ _ _ (by simp) (by simp) heq
      simp only [setup_branch_points]
      obtain ⟨k, hk⟩ : ∃ k, brs.length = k + 1 := ⟨brs.length - 1, by omega⟩
      rw [hk]
      simp only [assignGo, Nat.zero_add]
      refine ⟨runLen (sortBranches bas) ((0 : Nat) : Int) 0 (sortBranches bas).length, ?_⟩
      rw [assignGo_getD0 (sortBranches bas) k 1
            (runLen (sortBranches bas) ((0 : Nat) : Int) 0 (sortBranches bas).length) _
            (by omega),
          getD_set_zero _ _ _ hlen, h0]

/-! Pattern windows free of backslashes and `(` that end in a `$` anchor:
when `bar` succeeds on such a window it has consumed the entire subject
window — this is the mechanism behind `p$` forcing a match to end at the
end of the subject. -/

def plainDollar (re : List Char) (off rlen : Nat) : Prop :=
  1 ≤ rlen ∧ charAt re (off + (rlen - 1)) = '$' ∧
    ∀ k, k < rlen → charAt re (off + k) ≠ '\\' ∧ charAt re (off + k) ≠ '('

instance (re : List Char) (off rlen : Nat) : Decidable (plainDollar re off rlen) := by
  unfold plainDollar
  infer_instance

theorem charAt_ne_pos (re : List Char) (a b : Nat) (c1 c2 : Char)
    (h1 : charAt re a = c1) (h2 : charAt re b = c2) (hne : c1 ≠ c2) : a ≠ b := by
  intro hE
  rw [hE, h2] at h1
  exact hne h1.symm

set_option maxHeartbeats 2000000 in
theorem dollar_window (re s : List Char) (info : RegexInfo) : ∀ fuel : Nat,
    (∀ off rlen soff slen bi err r e, plainDollar re off rlen →
       bar re s info fuel off rlen soff slen bi err = some (r, e) → 0 < r → r = slen)
  ∧ (∀ off rlen soff slen bi i j err r e, plainDollar re off rlen → i < rlen → j ≤ slen →
       barLoop re s info fuel off rlen soff slen bi i j err = some (r, e) → 0 < r → r = slen)
  ∧ (∀ off rlen soff slen bi i step ni ng j2 nj err r e,
       ni < rlen → plainDollar re (off + ni) (rlen - ni) → j2 ≤ slen →
       (nj = 0 ∨ nj = slen) →
       quantLoop re s info fuel off rlen soff slen bi i step ni ng j2 nj err = some (r, e) →
       0 < r → r = slen) := by
  intro fuel
  induction fuel with
  | zero =>
    refine ⟨?_, ?_, ?_⟩ <;> intros <;> simp_all [bar, barLoop, quantLoop]
  | succ fuel ih =>
    obtain ⟨ihb, ihbl, ihq⟩ := ih
    refine ⟨?_, ?_, ?_⟩
    · intro off rlen soff slen bi err r e pd h hr
      rw [bar] at h
      exact ihbl off rlen soff slen bi 0 0 err r e pd pd.1 (Nat.zero_le _) h hr
    · intro off rlen soff slen bi i j err r e pd hi hj h hr
      have hstep : get_op_len re (off + i) = 1 := by
        simp [get_op_len, (pd.2.2 i hi).1]
      rw [barLoop] at h
      rw [hstep] at h
      split at h
      case isTrue hin =>
        split at h
        case isTrue hbare =>
          simp only [Option.some.injEq, Prod.mk.injEq] at h; omega
        case isFalse hbare =>
        split at h
        case isTrue hq =>
          split at h
          case isTrue hch =>
            -- `?` quantifier on the atom
            have hne : off + i + 1 ≠ off + (rlen - 1) :=
              charAt_ne_pos re _ _ '?' '$' hch pd.2.1 (by decide)
            split at h
            · exact absurd h (by simp)
            case h_2 n err1 heq =>
              have hn := (matcher_le re s info fuel).1 _ _ _ _ _ _ _ _ heq
              exact ihbl _ _ _ _ _ _ _ _ _ _ pd (by omega) (by omega) h hr
          case isFalse hch =>
            -- `+` or `*`
            have hiq := hq.2
            simp only [is_quantifier, decide_eq_true_eq] at hiq
            have hqc : charAt re (off + i + 1) = '*' ∨ charAt re (off + i + 1) = '+' := by
              rcases hiq with h1 | h1 | h1
              · exact Or.inl h1
              · exact Or.inr h1
              · exact absurd h1 hch
            have hne1 : off + i + 1 ≠ off + (rlen - 1) := by
              rcases hqc with h1 | h1
              · exact charAt_ne_pos re _ _ '*' '$' h1 pd.2.1 (by decide)
              · exact charAt_ne_pos re _ _ '+' '$' h1 pd.2.1 (by decide)
            have hgol : get_op_len re (off + i + 1) = 1 := by
              rcases hqc with h1 | h1 <;> simp [get_op_len, h1]
            have hni_lt : quantNext re off rlen i 1 < rlen := by
              by_cases hng : i + 1 + 1 < rlen ∧ charAt re (off + i + 1 + 1) = '?'
              · have hne2 : off + i + 1 + 1 ≠ off + (rlen - 1) :=
                  charAt_ne_pos re _ _ '?' '$' hng.2 pd.2.1 (by decide)
                have hngt : nonGreedy re off rlen i 1 = true := by
                  simp only [nonGreedy, decide_eq_true_eq]
                  exact hng
                simp only [quantNext, hngt, if_true, hgol]
                omega
              · have hngf : nonGreedy re off rlen i 1 = false := by
                  simp only [nonGreedy, decide_eq_false_iff_not]
                  exact hng
                simp only [quantNext, hngf, Bool.false_eq_true, if_false, hgol]
                omega
            have hpdt : plainDollar re (off + quantNext re off rlen i 1)
                (rlen - quantNext re off rlen i 1) := by
              refine ⟨by omega, ?_, ?_⟩
              · have harith : off + quantNext re off rlen i 1 +
                    (rlen - quantNext re off rlen i 1 - 1) = off + (rlen - 1) := by omega
                rw [harith]; exact pd.2.1
              · intro k hk
                have harith : off + quantNext re off rlen i 1 + k
                    = off + (quantNext re off rlen i 1 + k) := by omega
                rw [harith]
                exact pd.2.2 _ (by omega)
            exact ihq _ _ _ _ _ _ _ _ _ _ _ _ _ _ hni_lt hpdt hj (Or.inl rfl) h hr
        case isFalse hq =>
          split at h
          case isTrue hc => exact absurd hc (pd.2.2 i hin.1).1
          case isFalse hbsl =>
          split at h
          case isTrue hc => exact absurd hc (pd.2.2 i hin.1).2
          case isFalse hpar =>
          split at h
          case isTrue hc =>
            -- `^`
            split at h
            case isTrue hjz =>
              simp only [Option.some.injEq, Prod.mk.injEq] at h; omega
            case isFalse hjz =>
              have hne : off + i ≠ off + (rlen - 1) :=
                charAt_ne_pos re _ _ '^' '$' hc pd.2.1 (by decide)
              exact ihbl _ _ _ _ _ _ _ _ _ _ pd (by omega) hj h hr
          case isFalse hcaret =>
          split at h
          case isTrue hc =>
            simp only [Option.some.injEq, Prod.mk.injEq] at h; omega
          case isFalse hpipe =>
          split at h
          case isTrue hc =>
            simp only [Option.some.injEq, Prod.mk.injEq] at h; omega
          case isFalse hdol =>
          split at h
          case isTrue hc =>
            -- `.`
            have hne : off + i ≠ off + (rlen - 1) :=
              charAt_ne_pos re _ _ '.' '$' hc pd.2.1 (by decide)
            exact ihbl _ _ _ _ _ _ _ _ _ _ pd (by omega) (by omega) h hr
          case isFalse hcdot =>
          split at h
          case isTrue hc =>
            -- literal byte; the `$` case above was not taken, so `i` is not
            -- the final position
            have hne : off + i ≠ off + (rlen - 1) := by
              intro hE
              exact hdol (by rw [hE]; exact pd.2.1)
            exact ihbl _ _ _ _ _ _ _ _ _ _ pd (by omega) (by omega) h hr
          case isFalse hc =>
            simp only [Option.some.injEq, Prod.mk.injEq] at h; omega
      case isFalse hout =>
        have hjs : ¬ j < slen := fun hjlt => hout ⟨hi, hjlt⟩
        split at h
        case isTrue hfail =>
          simp only [Option.some.injEq, Prod.mk.injEq] at h; omega
        case isFalse hacc =>
          simp only [Option.some.injEq, Prod.mk.injEq] at h
          omega
    · intro off rlen soff slen bi i step ni ng j2 nj err r e hni pdt hj2 hnj h hr
      rw [quantLoop] at h
      split at h
      · exact absurd h (by simp)
      case h_2 n1 err1 heq1 =>
        have hn1 := (matcher_le re s info fuel).1 _ _ _ _ _ _ _ _ heq1
        split at h
        case isTrue hn1z =>
          simp only [quantFinish] at h
          split at h
          case isTrue hplus =>
            simp only [Option.some.injEq, Prod.mk.injEq] at h; omega
          case isFalse hplus =>
            simp only [Option.some.injEq, Prod.mk.injEq] at h
            rcases hnj with h0 | hs <;> omega
        case isFalse hn1z =>
          split at h
          case isTrue hge => omega
          case isFalse hge =>
          split at h
          · exact absurd h (by simp)
          case h_2 n2 err2 heq2 =>
            have hn2 := (matcher_le re s info fuel).1 _ _ _ _ _ _ _ _ heq2
            split at h
            case isTrue hn2z =>
              split at h
              case isTrue hbrk =>
                obtain ⟨hbrk1, _⟩ := hbrk
                simp only [Option.some.injEq, Prod.mk.injEq] at h
                rcases hnj with h0 | hs <;> omega
              case isFalse hbrk =>
                exact ihq _ _ _ _ _ _ _ _ _ _ _ _ _ _ hni pdt (by omega) hnj h hr
            case isFalse hn2z =>
              have hn2eq := ihb _ _ _ _ _ _ _ _ pdt heq2 (by omega)
              split at h
              case isTrue hngt =>
                simp only [Option.some.injEq, Prod.mk.injEq] at h
                omega
              case isFalse hngt =>
                exact ihq _ _ _ _ _ _ _ _ _ _ _ _ _ _ hni pdt (by omega)
                  (Or.inr (by omega)) h hr

/-! Claim theorems. -/

/-- Claim C10: for every pattern, subject and fuel, a returned match result
`r` satisfies `0 ≤ r ≤ subject_length` (the result is a `Nat`, so it is
never negative), and a subject of length 0 always yields 0 — even for
patterns such as `^` or `a*` that could match the empty string. -/
theorem c10_result_bounds (fuel : Nat) (re s : List Char) (slen r : Nat) (e : String)
    (h : slre_match fuel re s slen = some (r, e)) :
    r ≤ slen ∧ (slen = 0 → r = 0) := by
  unfold slre_match foo at h
  split at h
  case h_1 m heq =>
    simp only [Option.some.injEq, Prod.mk.injEq] at h
    constructor <;> omega
  case h_2 info heq =>
    constructor
    · exact fooDriver_le re s info slen fuel slen 0 _ r e (by omega) h
    · intro hz
      subst hz
      rw [fooDriver] at h
      simp only [Option.some.injEq, Prod.mk.injEq] at h
      omega

theorem c10_result_bounds_witness :
    slre_match 20 ['a'] ['a', 'b'] 2 = some (1, static_error_no_match) ∧
      (1 ≤ 2 ∧ (2 = 0 → 1 = 0)) :=
  ⟨by decide, c10_result_bounds 20 ['a'] ['a', 'b'] 2 1 static_error_no_match (by decide)⟩

/-- Claim C6: the `^` atom of the sequencer is zero-width and succeeds only
when the subject cursor `j` is 0: with `j ≠ 0` the whole `bar` call fails
with "No match", and with `j = 0` the loop continues past the `^` without
consuming a subject byte. -/
theorem c6_caret_zero_width (re s : List Char) (info : RegexInfo)
    (fuel off rlen soff slen bi i j : Nat) (err : String)
    (h1 : i < rlen) (h2 : j < slen) (hc : charAt re (off + i) = '^')
    (hnq : ¬(i + 1 < rlen ∧ is_quantifier re (off + i + 1) = true)) :
    (j ≠ 0 → barLoop re s info (fuel + 1) off rlen soff slen bi i j err =
        some (0, static_error_no_match)) ∧
    (j = 0 → barLoop re s info (fuel + 1) off rlen soff slen bi i j err =
        barLoop re s info fuel off rlen soff slen bi (i + 1) j err) := by
  have hqf : ¬(is_quantifier re (off + i) = true) := by simp [is_quantifier, hc]
  have hstep : get_op_len re (off + i) = 1 := by
    simp [get_op_len, hc]
  constructor <;> intro hjz <;>
    rw [barLoop, hstep, if_pos ⟨h1, h2⟩, if_neg hqf, if_neg hnq,
      if_neg (by rw [hc]; decide), if_neg (by rw [hc]; decide), if_pos hc]
  · rw [if_pos hjz]
  · rw [if_neg (by simp [hjz])]

theorem c6_caret_zero_width_witness :
    (0 : Nat) < 1 ∧ (1 : Nat) < 2 ∧ charAt ['^'] (0 + 0) = '^' ∧
    ¬(0 + 1 < 1 ∧ is_quantifier ['^'] (0 + 0 + 1) = true) ∧
    ((1 ≠ 0 → barLoop ['^'] ['a', 'b'] ⟨[], []⟩ (5 + 1) 0 1 0 2 0 0 1 "No match" =
        some (0, static_error_no_match)) ∧
     (1 = 0 → barLoop ['^'] ['a', 'b'] ⟨[], []⟩ (5 + 1) 0 1 0 2 0 0 1 "No match" =
        barLoop ['^'] ['a', 'b'] ⟨[], []⟩ 5 0 1 0 2 0 (0 + 1) 1 "No match")) :=
  ⟨by decide, by decide, by decide, by decide,
    c6_caret_zero_width ['^'] ['a', 'b'] ⟨[], []⟩ 5 0 1 0 2 0 0 1 "No match"
      (by decide) (by decide) (by decide) (by decide)⟩

/-- Claim C7: when the repeated atom of a quantifier stops matching, the
loop exits through `quantFinish`: a `+` fails with "No match" exactly when
the confirmed end offset `nj` is 0, while a `*` returns `nj` unchanged even
when it is 0 (an empty repetition), without touching the error slot. -/
theorem c7_quant_exit (re s : List Char) (info : RegexInfo)
    (fuel off rlen soff slen bi i step ni j2 nj : Nat) (ng : Bool) (err e1 : String)
    (hstop : bar re s info fuel (off + i) step (soff + j2) (slen - j2) bi err =
      some (0, e1)) :
    quantLoop re s info (fuel + 1) off rlen soff slen bi i step ni ng j2 nj err =
      quantFinish re (off + i + step) nj e1 ∧
    (charAt re (off + i + step) = '+' → nj = 0 →
      quantFinish re (off + i + step) nj e1 = some (0, static_error_no_match)) ∧
    (charAt re (off + i + step) = '+' → nj ≠ 0 →
      quantFinish re (off + i + step) nj e1 = some (nj, e1)) ∧
    (charAt re (off + i + step) = '*' →
      quantFinish re (off + i + step) nj e1 = some (nj, e1)) := by
  refine ⟨?_, ?_, ?_, ?_⟩
  · rw [quantLoop, hstop]
    rfl
  · intro hp hz
    simp [quantFinish, hp, hz]
  · intro hp hnz
    simp [quantFinish, hnz]
  · intro hs
    simp [quantFinish, hs]

theorem c7_quant_exit_witness :
    bar ['a', '+', 'b'] ['x'] ⟨[], []⟩ 5 (0 + 0) 1 (0 + 0) (1 - 0) 0 "No match" =
      some (0, static_error_no_match) ∧
    (quantLoop ['a', '+', 'b'] ['x'] ⟨[], []⟩ (5 + 1) 0 3 0 1 0 0 1 2 false 0 0
        "No match" =
      quantFinish ['a', '+', 'b'] (0 + 0 + 1) 0 static_error_no_match ∧
     (charAt ['a', '+', 'b'] (0 + 0 + 1) = '+' → 0 = 0 →
       quantFinish ['a', '+', 'b'] (0 + 0 + 1) 0 static_error_no_match =
         some (0, static_error_no_match)) ∧
     (charAt ['a', '+', 'b'] (0 + 0 + 1) = '+' → 0 ≠ 0 →
       quantFinish ['a', '+', 'b'] (0 + 0 + 1) 0 static_error_no_match =
         some (0, static_error_no_match)) ∧
     (charAt ['a', '+', 'b'] (0 + 0 + 1) = '*' →
       quantFinish ['a', '+', 'b'] (0 + 0 + 1) 0 static_error_no_match =
         some (0, static_error_no_match))) :=
  ⟨by decide,
    c7_quant_exit ['a', '+', 'b'] ['x'] ⟨[], []⟩ 5 0 3 0 1 0 0 1 2 0 0 false
      "No match" static_error_no_match (by decide)⟩

/-- Claim C3 is a bug in the code: the source demands a stable sort
("Must be stable, no qsort") and the spec states branches of one bracket
keep pattern order, but the exchange sort used is NOT stable.  For the valid
pattern `((a|b|c)|d)` the scan records branches `(2,3), (2,5), (1,8)` and the
sort emits `(1,8), (2,5), (2,3)`: the two branches of bracket 2 come out in
reversed order.  Behaviorally, alternative `b` of the inner bracket becomes
unreachable (matching subject "b" fails) while `d` still matches. -/
theorem c3_sort_unstable :
    sortBranches [⟨2, 3⟩, ⟨2, 5⟩, ⟨1, 8⟩] = [⟨1, 8⟩, ⟨2, 5⟩, ⟨2, 3⟩] ∧
    (match analysis (String.toList "((a|b|c)|d)") with
      | Except.ok info => info.branches
      | Except.error _ => []) = [⟨1, 8⟩, ⟨2, 5⟩, ⟨2, 3⟩] ∧
    (slre_match 200 (String.toList "((a|b|c)|d)") (String.toList "b") 1).map Prod.fst =
      some 0 ∧
    (slre_match 200 (String.toList "((a|b|c)|d)") (String.toList "d") 1).map Prod.fst =
      some 1 :=
  ⟨by decide, by decide, by decide, by decide⟩

/-- Claim C8 (amended): when the scanner reaches a `)` whose immediately
preceding byte is `(` and the depth stays non-negative, it rejects the
pattern with "No match" — so `()` is an error, not a zero-width group.
An earlier scan failure can preempt this check with a different message. -/
theorem c8_empty_group (re rest : List Char) (i : Nat) (depth : Int)
    (brs : List BracketPair) (bas : List Branch)
    (h1 : 1 ≤ i) (h2 : charAt re (i - 1) = '(') (h3 : ¬(depth - 1 < 0)) :
    scanGo re (')' :: rest) i depth brs bas = Except.error static_error_no_match ∧
    slre_match 50 (String.toList "()") (String.toList "abc") 3 =
      some (0, static_error_no_match) := by
  constructor
  · rw [scanGo]
    rw [if_neg (by decide), if_neg (by decide), if_pos rfl, if_neg h3,
      if_pos ⟨by omega, h2⟩]
  · decide

/-- Claim C8 as frozen is false: the pattern `)()`  contains the empty
bracket pair `()`, yet the match call reports "Unbalanced brackets" (the
depth goes negative at the leading `)` before the empty pair is reached),
not "No match". -/
theorem c8_counterexample :
    slre_match 50 (String.toList ")()") (String.toList "abc") 3 =
      some (0, static_error_unbalanced_brackets) ∧
    static_error_unbalanced_brackets ≠ static_error_no_match :=
  ⟨by decide, by decide⟩

theorem c8_empty_group_witness :
    (1 : Nat) ≤ 1 ∧ charAt (String.toList "()") (1 - 1) = '(' ∧
    ¬((1 : Int) - 1 < 0) ∧
    (scanGo (String.toList "()") (')' :: []) 1 1 [⟨0, 2, 0, 0⟩, ⟨1, -1, 0, 0⟩] [] =
        Except.error static_error_no_match ∧
      slre_match 50 (String.toList "()") (String.toList "abc") 3 =
        some (0, static_error_no_match)) :=
  ⟨by decide, by decide, by decide,
    c8_empty_group (String.toList "()") [] 1 1 [⟨0, 2, 0, 0⟩, ⟨1, -1, 0, 0⟩] []
      (by decide) (by decide) (by decide)⟩

/-- Claim C9: a `)` that would drive the depth counter negative makes the
scan fail with "Unbalanced brackets"; a scan that completes with nonzero
depth makes the whole match call return 0 with "Unbalanced brackets"; in
particular the pattern `(` yields 0 with that reason. -/
theorem c9_unbalanced (re rest : List Char) (i : Nat) (depth : Int)
    (brs : List BracketPair) (bas : List Branch)
    (h : depth - 1 < 0) :
    scanGo re (')' :: rest) i depth brs bas =
      Except.error static_error_unbalanced_brackets ∧
    (∀ re' s slen fuel brs' bas' d,
      scanGo re' re' 0 0 [⟨0, (re'.length : Int), 0, 0⟩] [] =
        Except.ok (brs', bas', d) →
      d ≠ 0 → slre_match fuel re' s slen = some (0, static_error_unbalanced_brackets)) ∧
    slre_match 50 (String.toList "(") (String.toList "fooklmn") 7 =
      some (0, static_error_unbalanced_brackets) := by
  refine ⟨?_, ?_, by decide⟩
  · rw [scanGo]
    rw [if_neg (by decide), if_neg (by decide), if_pos rfl, if_pos h]
  · intro re' s slen fuel brs' bas' d hscan hd
    unfold slre_match foo analysis
    rw [hscan]
    simp [hd]

theorem c9_unbalanced_witness :
    ((0 : Int) - 1 < 0) ∧
    (scanGo (String.toList ")") (')' :: []) 0 0 [⟨0, 1, 0, 0⟩] [] =
        Except.error static_error_unbalanced_brackets ∧
      (∀ re' s slen fuel brs' bas' d,
        scanGo re' re' 0 0 [⟨0, (re'.length : Int), 0, 0⟩] [] =
          Except.ok (brs', bas', d) →
        d ≠ 0 →
        slre_match fuel re' s slen = some (0, static_error_unbalanced_brackets)) ∧
      slre_match 50 (String.toList "(") (String.toList "fooklmn") 7 =
        some (0, static_error_unbalanced_brackets)) :=
  ⟨by decide,
    c9_unbalanced (String.toList ")") [] 0 0 [⟨0, 1, 0, 0⟩] [] (by decide)⟩

/-- Claim C4: when the pattern's first byte is `^`, the driver loop breaks
after its very first attempt (whatever the anchor), and a positive public
result is exactly a bracket-0 match at subject offset 0 — the matched
region begins at the start of the subject. -/
theorem c4_caret_anchor (fuel : Nat) (re s : List Char) (slen r : Nat) (e : String)
    (hc : charAt re 0 = '^') :
    (∀ info k i err, fooDriver re s info slen fuel (k + 1) i err =
        (doh re s info fuel i (slen - i) 0 err).map (fun p => (p.1 + i, p.2))) ∧
    (slre_match fuel re s slen = some (r, e) → 0 < r →
      ∃ info, analysis re = Except.ok info ∧
        doh re s info fuel 0 slen 0 static_error_no_match = some (r, e)) := by
  constructor
  · intro info k i err
    exact fooDriver_caret re s info slen fuel hc k i err
  · intro h hr
    unfold slre_match foo at h
    split at h
    case h_1 m heq =>
      simp only [Option.some.injEq, Prod.mk.injEq] at h
      omega
    case h_2 info heq =>
      refine ⟨info, heq, ?_⟩
      rcases Nat.eq_zero_or_pos slen with hz | hpos
      · subst hz
        rw [fooDriver] at h
        simp only [Option.some.injEq, Prod.mk.injEq] at h
        omega
      · obtain ⟨k, hk⟩ : ∃ k, slen = k + 1 := ⟨slen - 1, by omega⟩
        rw [hk] at h ⊢
        rw [fooDriver_caret re s info (k + 1) fuel hc k 0 static_error_no_match] at h
        cases hd : doh re s info fuel 0 (k + 1 - 0) 0 static_error_no_match with
        | none => rw [hd] at h; simp at h
        | some p =>
          obtain ⟨r0, e0⟩ := p
          rw [hd] at h
          simp only [Option.map_some', Option.some.injEq, Prod.mk.injEq] at h
          obtain ⟨h1, rfl⟩ := h
          have hrr : r = r0 := by omega
          subst hrr
          simpa using hd

theorem c4_caret_anchor_witness :
    charAt ['^', 'a'] 0 = '^' ∧
    ((∀ info k i err,
        fooDriver ['^', 'a'] ['a', 'b'] info 2 50 (k + 1) i err =
          (doh ['^', 'a'] ['a', 'b'] info 50 i (2 - i) 0 err).map
            (fun p => (p.1 + i, p.2))) ∧
     (slre_match 50 ['^', 'a'] ['a', 'b'] 2 = some (1, static_error_no_match) →
        0 < 1 →
        ∃ info, analysis ['^', 'a'] = Except.ok info ∧
          doh ['^', 'a'] ['a', 'b'] info 50 0 2 0 static_error_no_match =
            some (1, static_error_no_match))) :=
  ⟨by decide, c4_caret_anchor 50 ['^', 'a'] ['a', 'b'] 2 1 static_error_no_match
    (by decide)⟩

/-- Claim C2: in the `+`/`*` repetition loop, as soon as the confirmed end
offset is positive a non-greedy quantifier stops and returns it (first
acceptable prefix), while a greedy quantifier keeps extending with the same
offset recorded; concretely `.+c` on "abcabc" (length 6) gives 6 and `.+?c`
gives 3. -/
theorem c2_greediness (re s : List Char) (info : RegexInfo)
    (fuel off rlen soff slen bi i step ni j2 nj n1 n2 : Nat) (err e1 e2 : String)
    (hatom : bar re s info fuel (off + i) step (soff + j2) (slen - j2) bi err =
      some (n1, e1))
    (hn1 : 0 < n1) (hni : ni < rlen)
    (htail : bar re s info fuel (off + ni) (rlen - ni) (soff + (j2 + n1))
        (slen - (j2 + n1)) bi e1 = some (n2, e2))
    (hn2 : 0 < n2) :
    (quantLoop re s info (fuel + 1) off rlen soff slen bi i step ni true j2 nj err =
        some (j2 + n1 + n2, e2)) ∧
    (quantLoop re s info (fuel + 1) off rlen soff slen bi i step ni false j2 nj err =
        quantLoop re s info fuel off rlen soff slen bi i step ni false (j2 + n1)
          (j2 + n1 + n2) e2) ∧
    (slre_match 50 (String.toList ".+c") (String.toList "abcabc") 6).map Prod.fst =
      some 6 ∧
    (slre_match 50 (String.toList ".+?c") (String.toList "abcabc") 6).map Prod.fst =
      some 3 := by
  refine ⟨?_, ?_, by decide, by decide⟩
  · simp only [quantLoop, hatom]
    rw [if_neg (by omega), if_neg (by omega)]
    simp only [htail]
    rw [if_neg (by omega), if_pos trivial]
  · simp only [quantLoop, hatom]
    rw [if_neg (by omega), if_neg (by omega)]
    simp only [htail]
    rw [if_neg (by omega), if_neg (by decide)]

theorem c2_greediness_witness :
    bar ['a', '+', 'b'] ['a', 'b'] ⟨[], []⟩ 10 (0 + 0) 1 (0 + 0) (2 - 0) 0 "No match" =
      some (1, "No match") ∧ (0 : Nat) < 1 ∧ (2 : Nat) < 3 ∧
    bar ['a', '+', 'b'] ['a', 'b'] ⟨[], []⟩ 10 (0 + 2) (3 - 2) (0 + (0 + 1)) (2 - (0 + 1))
        0 "No match" = some (1, "No match") ∧ (0 : Nat) < 1 ∧
    ((quantLoop ['a', '+', 'b'] ['a', 'b'] ⟨[], []⟩ (10 + 1) 0 3 0 2 0 0 1 2 true 0 0
        "No match" = some (0 + 1 + 1, "No match")) ∧
     (quantLoop ['a', '+', 'b'] ['a', 'b'] ⟨[], []⟩ (10 + 1) 0 3 0 2 0 0 1 2 false 0 0
        "No match" =
       quantLoop ['a', '+', 'b'] ['a', 'b'] ⟨[], []⟩ 10 0 3 0 2 0 0 1 2 false (0 + 1)
         (0 + 1 + 1) "No match") ∧
     (slre_match 50 (String.toList ".+c") (String.toList "abcabc") 6).map Prod.fst =
       some 6 ∧
     (slre_match 50 (String.toList ".+?c") (String.toList "abcabc") 6).map Prod.fst =
       some 3) :=
  ⟨by decide, by decide, by decide, by decide, by decide,
    c2_greediness ['a', '+', 'b'] ['a', 'b'] ⟨[], []⟩ 10 0 3 0 2 0 0 1 2 0 0 1 1
      "No match" "No match" "No match" (by decide) (by decide) (by decide) (by decide)
      (by decide)⟩

/-- Claim C1: the branch dispatcher `doh` runs its do-while loop over every
alternative of the bracket in order and returns the result of the LAST
alternative tried, never short-circuiting on an earlier success; matching
`k(xx|yy)|ca|bc` against "abcabc" (length 6) returns 3. -/
theorem c1_dispatcher_last (re s : List Char) (info : RegexInfo)
    (fuel soff slen bi i : Nat) (err : String) (r : Nat) (e : String)
    (hle : i ≤ (info.brackets.getD bi default).num_branches)
    (h : dohGo re s info fuel soff slen bi i err = some (r, e)) :
    (∃ f e', bar re s info f
        (branchStart info bi (info.brackets.getD bi default).num_branches)
        (branchLen info bi (info.brackets.getD bi default).num_branches)
        soff slen bi e' = some (r, e)) ∧
    (slre_match 50 (String.toList "k(xx|yy)|ca|bc") (String.toList "abcabc") 6).map
        Prod.fst = some 3 :=
  ⟨dohGo_last re s info fuel soff slen bi i err r e hle h, by decide⟩

theorem c1_dispatcher_last_witness :
    (0 : Nat) ≤ ((RegexInfo.mk [⟨0, 3, 0, 1⟩] [⟨0, 1⟩]).brackets.getD 0
        default).num_branches ∧
    dohGo (String.toList "a|b") (String.toList "ab") ⟨[⟨0, 3, 0, 1⟩], [⟨0, 1⟩]⟩
        10 0 2 0 0 "No match" = some (0, static_error_no_match) ∧
    ((∃ f e', bar (String.toList "a|b") (String.toList "ab")
        (RegexInfo.mk [⟨0, 3, 0, 1⟩] [⟨0, 1⟩]) f
        (branchStart ⟨[⟨0, 3, 0, 1⟩], [⟨0, 1⟩]⟩ 0 1)
        (branchLen ⟨[⟨0, 3, 0, 1⟩], [⟨0, 1⟩]⟩ 0 1) 0 2 0 e' =
        some (0, static_error_no_match)) ∧
     (slre_match 50 (String.toList "k(xx|yy)|ca|bc") (String.toList "abcabc") 6).map
        Prod.fst = some 3) := by
  refine ⟨by decide, by decide, ?_⟩
  have h := c1_dispatcher_last (String.toList "a|b") (String.toList "ab")
    ⟨[⟨0, 3, 0, 1⟩], [⟨0, 1⟩]⟩ 10 0 2 0 0 "No match" 0 static_error_no_match
    (by decide) (by decide)
  exact h

/-- Claim C5 as frozen is false: `((ab)c)(d)$` ends in a `$` anchor, yet
matching the 6-byte subject "abcabX" returns 5 ≠ 6.  After the nested group
`(ab)` the local bracket counter is stale, so the jump
`i += brackets[bi].len + 1` for `(d)` uses the length of the wrong bracket,
lands exactly at `re_len`, and the final `$` is never examined. -/
theorem c5_counterexample :
    slre_match 50 (String.toList "((ab)c)(d)$") (String.toList "abcabX") 6 =
      some (5, static_error_no_match) ∧ (5 : Nat) ≠ 6 :=
  ⟨by decide, by decide⟩

/-- Claim C5 (amended): a `$` met inside the sequencer loop fails with
"No match"; after the loop, remaining pattern bytes are accepted only as a
single final `$` with the subject cursor at the end of the subject window;
and for every pattern that contains no backslash and no `(` and ends in `$`,
a positive result of the match call equals the subject length. -/
theorem c5_dollar (fuel : Nat) (re s : List Char) (slen r : Nat) (e : String)
    (hpd : plainDollar re 0 re.length)
    (hm : slre_match fuel re s slen = some (r, e)) (hr : 0 < r) :
    r = slen ∧
    (∀ (re' s' : List Char) (info : RegexInfo) (f off rlen soff slen' bi i j : Nat)
       (err : String),
      i < rlen → j < slen' → charAt re' (off + i) = '$' →
      ¬(i + 1 < rlen ∧ is_quantifier re' (off + i + 1) = true) →
      barLoop re' s' info (f + 1) off rlen soff slen' bi i j err =
        some (0, static_error_no_match)) ∧
    (∀ (re' s' : List Char) (info : RegexInfo) (f off rlen soff slen' bi i : Nat)
       (err : String),
      i < rlen →
      barLoop re' s' info (f + 1) off rlen soff slen' bi i slen' err =
        (if charAt re' (off + i) = '$' ∧ i + 1 = rlen then some (slen', err)
         else some (0, static_error_no_match))) := by
  refine ⟨?_, ?_, ?_⟩
  · unfold slre_match foo at hm
    split at hm
    case h_1 m heq =>
      simp only [Option.some.injEq, Prod.mk.injEq] at hm
      omega
    case h_2 info heq =>
      obtain ⟨i2, r0, err2, hd, hre, hcase⟩ :=
        fooDriver_pos re s info slen fuel slen 0 _ r e hm hr
      have hr0 : 0 < r0 := by
        rcases hcase with hp | ⟨_, hiz⟩
        · exact hp
        · omega
      obtain ⟨g, hg⟩ : ∃ g, fuel = g + 1 := by
        cases fuel with
        | zero => rw [doh] at hd; exact absurd hd (by simp)
        | succ g => exact ⟨g, rfl⟩
      subst hg
      rw [doh] at hd
      obtain ⟨f, e', hbar⟩ :=
        dohGo_last re s info g i2 (slen - i2) 0 0 err2 r0 e (Nat.zero_le _) hd
      obtain ⟨nb, hb0⟩ := analysis_bracket0 re info heq
      have hnbv : (info.brackets.getD 0 default).num_branches = nb := by rw [hb0]
      rw [hnbv] at hbar
      have hrlen : 1 ≤ re.length := hpd.1
      have hbl : 0 < branchLen info 0 nb := by
        rcases Nat.eq_zero_or_pos (branchLen info 0 nb) with hz | hp
        · rw [hz] at hbar
          have := bar_rlen_zero re s info f _ _ _ _ _ _ _ hbar
          omega
        · exact hp
      have hpd' : plainDollar re (branchStart info 0 nb) (branchLen info 0 nb) := by
        by_cases hnb : nb = 0
        · have hps : branchStart info 0 nb = 0 := by
            unfold branchStart
            rw [hnb, if_pos rfl, hb0]
          have hpl : branchLen info 0 nb = re.length := by
            unfold branchLen
            rw [hb0]
            simp [hnb]
          rw [hps, hpl]
          exact hpd
        · have hpl : branchLen info 0 nb
              = ((re.length : Int) - (branchStart info 0 nb : Int)).toNat := by
            unfold branchLen
            rw [hb0]
            simp [hnb]
          refine ⟨hbl, ?_, ?_⟩
          · have harith : branchStart info 0 nb + (branchLen info 0 nb - 1)
                = 0 + (re.length - 1) := by omega
            rw [harith]
            exact hpd.2.1
          · intro k hk
            have harith : branchStart info 0 nb + k
                = 0 + (branchStart info 0 nb + k) := by omega
            rw [harith]
            exact hpd.2.2 _ (by omega)
      have hval := (dollar_window re s info f).1 _ _ _ _ _ _ _ _ hpd' hbar hr0
      have hb := (matcher_le re s info f).1 _ _ _ _ _ _ _ _ hbar
      omega
  · intro re' s' info f off rlen soff slen' bi i j err hi hj hc hnq
    have hqf : ¬(is_quantifier re' (off + i) = true) := by simp [is_quantifier, hc]
    have hstep : get_op_len re' (off + i) = 1 := by simp [get_op_len, hc]
    rw [barLoop, hstep, if_pos ⟨hi, hj⟩, if_neg hqf, if_neg hnq,
      if_neg (by rw [hc]; decide), if_neg (by rw [hc]; decide),
      if_neg (by rw [hc]; decide), if_neg (by rw [hc]; decide), if_pos hc]
  · intro re' s' info f off rlen soff slen' bi i err hi
    rw [barLoop, if_neg (by omega)]
    by_cases hds : charAt re' (off + i) = '$' ∧ i + 1 = rlen
    · rw [if_neg (fun hcon => hcon.2 hds), if_pos hds]
    · rw [if_pos ⟨hi, hds⟩, if_neg hds]

theorem c5_dollar_witness :
    plainDollar (String.toList "ab$") 0 (String.toList "ab$").length ∧
    slre_match 50 (String.toList "ab$") (String.toList "xab") 3 =
      some (3, static_error_no_match) ∧ (0 : Nat) < 3 ∧
    ((3 : Nat) = 3 ∧
     (∀ (re' s' : List Char) (info : RegexInfo) (f off rlen soff slen' bi i j : Nat)
        (err : String),
       i < rlen → j < slen' → charAt re' (off + i) = '$' →
       ¬(i + 1 < rlen ∧ is_quantifier re' (off + i + 1) = true) →
       barLoop re' s' info (f + 1) off rlen soff slen' bi i j err =
         some (0, static_error_no_match)) ∧
     (∀ (re' s' : List Char) (info : RegexInfo) (f off rlen soff slen' bi i : Nat)
        (err : String),
       i < rlen →
       barLoop re' s' info (f + 1) off rlen soff slen' bi i slen' err =
         (if charAt re' (off + i) = '$' ∧ i + 1 = rlen then some (slen', err)
          else some (0, static_error_no_match)))) :=
  ⟨by decide, by decide, by decide,
    c5_dollar 50 (String.toList "ab$") (String.toList "xab") 3 3 static_error_no_match
      (by decide) (by decide) (by decide)⟩

end Slre
